import Mathlib

/-!
Shallow embedding of the live-text ingestion and adaptive-display core of
the faeton Windows HUD (src/windows_hud/main.cpp).

Modelling conventions:
- C++ narrow and wide strings are both modelled as List Char; the UTF-8 to
  UTF-16 conversions (Utf8ToWide, WideToUtf8) preserve the character
  sequence and are modelled as the identity.
- TrimAscii (main.cpp:744) and the wide Trim (main.cpp:186) strip the same
  four characters (space, LF, CR, TAB) from both ends; one Lean function
  TrimAscii models both.
- The uint64_t dataVersion counter is modelled as Nat: it is incremented
  once per publish call, so 64-bit wraparound is unreachable in any run of
  the process.
- float arithmetic in the layout and scroll code is modelled over Rat; the
  claims concern clamping and bound invariants, which are preserved under
  exact arithmetic because every clamp is a comparison followed by a copy
  of an already-computed value.
- External oracles (DirectWrite text measurement, the monitor work area,
  file contents, WinHTTP reads, the localtime table, and the outcome of
  the std::stod conversion) enter as parameters.
-/

/-- Character set stripped by TrimAscii (main.cpp:744) and Trim
(main.cpp:186): space, LF, CR, TAB. -/
def isAsciiWs (c : Char) : Bool :=
  c = ' ' || c = '\n' || c = '\r' || c = '\t'

/-- TrimAscii (main.cpp:744-754): drop the isAsciiWs characters from the
front, then from the back. Also models the wide Trim (main.cpp:186-196),
which strips the identical character set. -/
def TrimAscii (s : List Char) : List Char :=
  ((s.dropWhile isAsciiWs).reverse.dropWhile isAsciiWs).reverse

/-- The sentinel body used when published text is empty
(main.cpp:758 and main.cpp:832). -/
def kRecordingActive : List Char :=
  ['R', 'e', 'c', 'o', 'r', 'd', 'i', 'n', 'g', ' ', 'a', 'c', 't', 'i', 'v', 'e', '.']

/-- The unknown-stamp marker (main.cpp:786 and main.cpp:835). -/
def kDashes : List Char :=
  ['-', '-', ':', '-', '-', ':', '-', '-']

/-- One scrollback entry (struct LogLine, main.cpp:101-104). -/
structure LogLine where
  hhmmss : List Char
  text : List Char
deriving DecidableEq, Repr

/-- The lock-guarded shared display state: latestText, logLines and
dataVersion fields of AppState (main.cpp:126-129). -/
structure SharedState where
  latestText : List Char
  logLines : List LogLine
  dataVersion : Nat
deriving DecidableEq, Repr

/-- Initial shared state (field initializers, main.cpp:126-129). -/
def initState : SharedState :=
  { latestText := kRecordingActive, logLines := [], dataVersion := 0 }

/-- SetLatestText (main.cpp:756-760): store the text (with the sentinel
substituted for an empty string) and bump the version. The scrollback log
is not touched. -/
def SetLatestText (s : SharedState) (text : List Char) : SharedState :=
  { s with
    latestText := if text = [] then kRecordingActive else text
    dataVersion := s.dataVersion + 1 }

/-- AppendLiveLogLine (main.cpp:829-841): trim the text, substitute the
sentinel if empty, append a LogLine with the dashes marker substituted for
an empty stamp, evict the front entry when the deque exceeds 400, store
the body as latestText, and bump the version. -/
def AppendLiveLogLine (s : SharedState) (hhmmss text : List Char) : SharedState :=
  let body := if TrimAscii text = [] then kRecordingActive else TrimAscii text
  let stamp := if hhmmss = [] then kDashes else hhmmss
  let log1 := s.logLines ++ [⟨stamp, body⟩]
  let log2 := if 400 < log1.length then log1.tail else log1
  { latestText := body, logLines := log2, dataVersion := s.dataVersion + 1 }

/-- Lock-protected read of the shared display state, as performed by
RefreshTextIfChanged (main.cpp:1608-1612) and the paint path: copies of
latestText, logLines and dataVersion. -/
def snapshot (s : SharedState) : List Char × List LogLine × Nat :=
  (s.latestText, s.logLines, s.dataVersion)

/-- The two publish entry points into the shared state. -/
inductive PubOp where
  | set (text : List Char)
  | app (hhmmss text : List Char)
deriving DecidableEq, Repr

/-- Apply one publish call. -/
def applyPub (s : SharedState) : PubOp → SharedState
  | .set t => SetLatestText s t
  | .app h t => AppendLiveLogLine s h t

/-- Fold a sequence of AppendLiveLogLine calls (stamp, text pairs) over a
state. -/
def foldAppends (s : SharedState) (ps : List (List Char × List Char)) : SharedState :=
  ps.foldl (fun acc p => AppendLiveLogLine acc p.1 p.2) s

/-- The LogLine that one AppendLiveLogLine call with the given (stamp,
text) pair appends: dashes substituted for an empty stamp, the trimmed
text with the sentinel substituted when it trims to nothing. -/
def entryOf (p : List Char × List Char) : LogLine :=
  { hhmmss := if p.1 = [] then kDashes else p.1
    text := if TrimAscii p.2 = [] then kRecordingActive else TrimAscii p.2 }

/-- The normalization PollInputFile applies to freshly read file content
(main.cpp:1381-1384): trim, then substitute the sentinel when empty. -/
def normalizePoll (content : List Char) : List Char :=
  if TrimAscii content = [] then kRecordingActive else TrimAscii content

/-- PollInputFile (main.cpp:1366-1390). The file read is an external
oracle: none models a missing or unreadable file (the open failure or an
exception), some content models a successful whole-file read already
decoded to text. On failure the state is returned unchanged; on success
the normalized content is published only when it differs from the stored
latestText. -/
def PollInputFile (fileContent : Option (List Char)) (s : SharedState) : SharedState :=
  match fileContent with
  | none => s
  | some content =>
    let normalized := normalizePoll content
    if normalized ≠ s.latestText then
      { s with latestText := normalized, dataVersion := s.dataVersion + 1 }
    else
      s

/-- Digit-sequence value, most significant first, as accumulated by the
numeric conversion of the id token. -/
def digitsVal (ds : List Char) : Nat :=
  ds.foldl (fun a c => a * 10 + (c.toNat - 48)) 0

/-- Outcome of the std::stod call at main.cpp:790. std::stod is a C
runtime routine whose complete semantics (hexadecimal floats, infinity
and NaN spellings, vertical-tab and form-feed skipping, the exact
overflow and underflow thresholds of binary64 and whether underflow sets
ERANGE) lives outside this repository, so the call enters the embedding
as an oracle producing one of three outcomes: the call threw
(invalid_argument for no conversion, or out_of_range on ERANGE - both
are swallowed by the catch at main.cpp:791), the call returned a finite
double (every finite double is an exact rational, carried here exactly),
or the call returned an infinity or a NaN. -/
inductive StodOut where
  | throws
  | val (v : ℚ)
  | nonFinite
deriving DecidableEq, Repr

/-- The largest time_t accepted by localtime_s on the Windows target
(_localtime64_s): 23:59:59, December 31, 3000, UTC. For later instants
the call fails with EINVAL and HumanTimeFromUnixText takes its dashes
branch (main.cpp:799-801). -/
def kMaxLocalTime : Int := 32535215999

/-- Two-digit zero-padded decimal rendering of a field value below 100,
as produced by the %H, %M and %S conversions of wcsftime. -/
def twoDig (n : Nat) : List Char :=
  [Char.ofNat (48 + n / 10), Char.ofNat (48 + n % 10)]

/-- The localtime_s plus wcsftime "%H:%M:%S" pair (main.cpp:799-803)
rendering the local time of day of a Unix second count within the
localtime range. The local-time table is an oracle tz giving the UTC
offset in seconds at each instant (covering time zones and DST); the
hour, minute and second fields are the Euclidean residues of the
offset-adjusted count. wcsftime with this format and a 16-slot buffer
(8 characters plus the terminator) never returns 0 for a valid tm. -/
def formatHHMMSS (tz : Int → Int) (sec : Int) : List Char :=
  let l := sec + tz sec
  twoDig (((l.ediv 3600).emod 24).toNat)
    ++ (':' :: twoDig (((l.ediv 60).emod 60).toNat))
    ++ (':' :: twoDig ((l.emod 60).toNat))

/-- HumanTimeFromUnixText (main.cpp:784-807), over the std::stod oracle:
dashes for an empty token (main.cpp:785), a token on which the
conversion throws (main.cpp:791), a non-positive value (main.cpp:794),
or a value whose truncation lies beyond the localtime range
(main.cpp:799); otherwise the local HH:MM:SS rendering of the value
truncated to whole seconds (the static_cast at main.cpp:797 truncates
toward zero, which on the positive branch is the floor). A nonFinite
return also lands on dashes: a negative infinity fails the positivity
test at main.cpp:794, while a positive infinity or a NaN (for which the
test at main.cpp:794 is false) overflows the time_t cast at
main.cpp:797, which saturates to the most negative value on the x64
target, and localtime_s then fails; the same localtime failure handles
finite values at or beyond two to the 63rd, which the kMaxLocalTime
comparison subsumes. -/
def HumanTimeFromUnixText (stod : List Char → StodOut) (tz : Int → Int)
    (tsText : List Char) : List Char :=
  if tsText = [] then kDashes
  else
    match stod tsText with
    | .throws => kDashes
    | .nonFinite => kDashes
    | .val ts =>
      if ts ≤ 0 then kDashes
      else if kMaxLocalTime < ⌊ts⌋ then kDashes
      else formatHHMMSS tz ⌊ts⌋

/-- Recognizer for the dd:dd:dd clock shape produced by formatHHMMSS. -/
def looksLikeClock (s : List Char) : Bool :=
  match s with
  | [a, b, c, d, e, f, g, h] =>
    a.isDigit && b.isDigit && c = ':' && d.isDigit && e.isDigit && f = ':'
      && g.isDigit && h.isDigit
  | _ => false

/-- The "id:" field tag (main.cpp:1566). -/
def kIdTag : List Char := ['i', 'd', ':']

/-- The "data:" field tag (main.cpp:1571). -/
def kDataTag : List Char := ['d', 'a', 't', 'a', ':']

/-- The "text" payload key (main.cpp:1581). -/
def kTextKey : List Char := ['t', 'e', 'x', 't']

/-- Starts-with test, the line.rfind(tag, 0) == 0 checks at
main.cpp:1566 and main.cpp:1571. First argument is the tag. -/
def startsWith : List Char → List Char → Bool
  | [], _ => true
  | _ :: _, [] => false
  | p :: ps, c :: cs => p == c && startsWith ps cs

/-- First index of a colon, payload.find(':') at main.cpp:1575. -/
def findColonIdx : List Char → Option Nat
  | [] => none
  | c :: cs => if c = ':' then some 0 else (findColonIdx cs).map (· + 1)

/-- The literal backslash-n unescaping loop at main.cpp:1582-1586: each
two-character backslash n pair is replaced by one newline, scanning left
to right without revisiting the inserted newline. -/
def unescapeNl : List Char → List Char
  | '\\' :: 'n' :: rest => '\n' :: unescapeNl rest
  | c :: rest => c :: unescapeNl rest
  | [] => []

/-- Trailing carriage-return strip applied to each extracted line
(main.cpp:1559-1561). -/
def stripCR (l : List Char) : List Char :=
  if l.getLast? = some '\r' then l.dropLast else l

/-- The per-connection event accumulator of SubscribeLoop
(main.cpp:1525-1527): the pending id, pending text and hasText flag. -/
structure ParserState where
  eventId : List Char
  eventText : List Char
  hasText : Bool
deriving DecidableEq, Repr

/-- Accumulator state at the start of a connection (main.cpp:1525-1527). -/
def initParser : ParserState :=
  { eventId := [], eventText := [], hasText := false }

/-- flushEvent (main.cpp:1528-1538): with no pending text, clear only the
pending id and emit nothing; with pending text, emit the (id, text) pair
and clear everything. -/
def flushEvent (st : ParserState) : ParserState × List (List Char × List Char) :=
  if st.hasText then
    ({ eventId := [], eventText := [], hasText := false }, [(st.eventId, st.eventText)])
  else
    ({ st with eventId := [] }, [])

/-- One iteration of the line loop of SubscribeLoop (main.cpp:1556-1591):
strip a trailing CR; a blank line flushes; an id line flushes and records
the trimmed token; a non-data line is ignored; a data line is split at the
first colon of its trimmed payload, and when the trimmed key is "text"
the trimmed value is unescaped, recorded, and flushed immediately. -/
def processLine (st : ParserState) (line0 : List Char) :
    ParserState × List (List Char × List Char) :=
  let line := stripCR line0
  if line = [] then
    flushEvent st
  else if startsWith kIdTag line then
    let r := flushEvent st
    ({ r.1 with eventId := TrimAscii (line.drop 3) }, r.2)
  else if startsWith kDataTag line then
    let payload := TrimAscii (line.drop 5)
    match findColonIdx payload with
    | none => (st, [])
    | some i =>
      let key := TrimAscii (payload.take i)
      let value := TrimAscii (payload.drop (i + 1))
      if key = kTextKey then
        flushEvent { st with eventText := unescapeNl value, hasText := true }
      else
        (st, [])
  else
    (st, [])

/-- Run the line loop over a list of complete lines, collecting the
emitted (id, text) pairs in order. -/
def feedLines (st : ParserState) : List (List Char) → ParserState × List (List Char × List Char)
  | [] => (st, [])
  | l :: ls =>
    let r := processLine st l
    let rest := feedLines r.1 ls
    (rest.1, r.2 ++ rest.2)

/-- The publish step per emitted event (main.cpp:1533-1534): append with
the stamp HumanTimeFromUnixText derives from the event id. -/
def pubAppend (stod : List Char → StodOut) (tz : Int → Int)
    (acc : SharedState) (e : List Char × List Char) : SharedState :=
  AppendLiveLogLine acc (HumanTimeFromUnixText stod tz e.1) e.2

/-- The line loop of SubscribeLoop coupled to the shared state: each
emitted event is appended at once via AppendLiveLogLine with the stamp
HumanTimeFromUnixText derives from its id (main.cpp:1533-1534). -/
def runSubscribe (stod : List Char → StodOut) (tz : Int → Int)
    (pst : ParserState) (sst : SharedState) :
    List (List Char) → ParserState × SharedState
  | [] => (pst, sst)
  | l :: ls =>
    let r := processLine pst l
    runSubscribe stod tz r.1 (r.2.foldl (pubAppend stod tz) sst) ls

/-- Per-line emission characterization: the unescaped trimmed value when
the line is a data line whose trimmed key is "text", none otherwise,
mirroring the branch structure of the loop body. -/
def textValueOfLine (line0 : List Char) : Option (List Char) :=
  let line := stripCR line0
  if line = [] then none
  else if startsWith kIdTag line then none
  else if startsWith kDataTag line then
    let payload := TrimAscii (line.drop 5)
    match findColonIdx payload with
    | none => none
    | some i =>
      if TrimAscii (payload.take i) = kTextKey then
        some (unescapeNl (TrimAscii (payload.drop (i + 1))))
      else
        none
  else
    none

/-- A wire line carrying an event id token: the tag, one space, then the
token. -/
def kIdLinePre : List Char := ['i', 'd', ':', ' ']

/-- The head of a wire line carrying a text payload: data tag, space,
text key, colon, space. -/
def kDataTextPre : List Char :=
  ['d', 'a', 't', 'a', ':', ' ', 't', 'e', 'x', 't', ':', ' ']

/-- True when the list neither starts nor ends with one of the four
TrimAscii whitespace characters. -/
def noEdgeWs (l : List Char) : Bool :=
  (match l.head? with
   | some c => !isAsciiWs c
   | none => true) &&
  (match l.getLast? with
   | some c => !isAsciiWs c
   | none => true)

/-- Scroll state of the overlay: scrollOffsetPx, maxScrollOffsetPx and
wheelRemainder fields of AppState (main.cpp:139-141). -/
structure ScrollState where
  scrollOffsetPx : ℚ
  maxScrollOffsetPx : ℚ
  wheelRemainder : Int
deriving DecidableEq, Repr

/-- Initial scroll state (field initializers, main.cpp:139-141). -/
def initScroll : ScrollState :=
  { scrollOffsetPx := 0, maxScrollOffsetPx := 0, wheelRemainder := 0 }

/-- The WM_MOUSEWHEEL handler (main.cpp:1760-1777): accumulate the wheel
delta, take whole 120-unit notches with C truncated division, keep the
remainder, and when any notch fired move the offset by 36 px per notch
and clamp it into [0, maxScrollOffsetPx]. -/
def wheelStep (st : ScrollState) (delta : Int) : ScrollState :=
  let r := st.wheelRemainder + delta
  let steps := r.tdiv 120
  let st1 := { st with wheelRemainder := r.tmod 120 }
  if steps ≠ 0 then
    let o1 := st1.scrollOffsetPx + (steps : ℚ) * 36
    let o2 := if o1 < 0 then 0 else o1
    let o3 := if st1.maxScrollOffsetPx < o2 then st1.maxScrollOffsetPx else o2
    { st1 with scrollOffsetPx := o3 }
  else
    st1

/-- The scroll portion of the WM_PAINT layout pass (main.cpp:1979-1986):
the viewport height is floored at 1, maxScrollOffsetPx is recomputed as
max 0 (content height minus viewport), and the stored offset is clamped
into [0, maxScrollOffsetPx]. Content and viewport heights are measurement
oracles. -/
def layoutStep (st : ScrollState) (totalHeight viewportRaw : ℚ) : ScrollState :=
  let vp := max 1 viewportRaw
  let m := max 0 (totalHeight - vp)
  let o1 := if st.scrollOffsetPx < 0 then 0 else st.scrollOffsetPx
  let o2 := if m < o1 then m else o1
  { st with maxScrollOffsetPx := m, scrollOffsetPx := o2 }

/-- Events that touch the scroll state: a wheel message or a layout pass. -/
inductive ScrollEv where
  | wheel (delta : Int)
  | layout (totalHeight viewportRaw : ℚ)

/-- Apply one scroll event. -/
def scrollStep (st : ScrollState) : ScrollEv → ScrollState
  | .wheel d => wheelStep st d
  | .layout t v => layoutStep st t v

/-- MaxWidthForMonitor (main.cpp:359-369): the monitor work-area width
minus the right margin (30) and 20, floored at kMinWidth = 300. -/
def MaxWidthForMonitor (workW : ℚ) : ℚ :=
  let available := workW - 30 - 20
  if available < 300 then 300 else available

/-- MaxHeightForMonitor (main.cpp:252-262): the monitor work-area height
minus the top margin (30) and 20, floored at kMinHeight = 180. -/
def MaxHeightForMonitor (workH : ℚ) : ℚ :=
  let available := workH - 30 - 20
  if available < 180 then 180 else available

/-- ComputeDesiredWidth (main.cpp:371-426): measured no-wrap text width
(an oracle, the larger of the main and meta measurements) plus twice the
padding (10) plus 12, clamped below at 300, above at 567, then capped at
MaxWidthForMonitor. -/
def ComputeDesiredWidth (maxTextW workW : ℚ) : ℚ :=
  let wanted := maxTextW + (10 * 2) + 12
  let maxW := MaxWidthForMonitor workW
  let w1 := if wanted < 300 then 300 else wanted
  let w2 := if 567 < w1 then 567 else w1
  if maxW < w2 then maxW else w2

/-- ComputeHeightForText (main.cpp:305-357): twice the padding (10) plus
the measured main and meta section heights (oracles, including their own
fixed overhang additions), clamped into [180, 2000]. No monitor bound is
consulted. -/
def ComputeHeightForText (mainHeight metaHeight : ℚ) : ℚ :=
  let h := (10 * 2) + mainHeight + metaHeight
  let h1 := if h < 180 then 180 else h
  if 2000 < h1 then 2000 else h1

/-- ApplyWindowSizeForFont (main.cpp:659-675): above the 24 pt threshold
the base 567 x 340 window grows 56 px per point in width and 10 px per
point in height, capped at the monitor maxima and floored at the 300 x
180 minima. -/
def ApplyWindowSizeForFont (fontSize workW workH : ℚ) : ℚ × ℚ :=
  let grow := if fontSize - 24 < 0 then 0 else fontSize - 24
  let tW := 567 + grow * 56
  let tH := 340 + grow * 10
  let maxW := MaxWidthForMonitor workW
  let maxH := MaxHeightForMonitor workH
  let tW1 := if maxW < tW then maxW else tW
  let tH1 := if maxH < tH then maxH else tH
  let tW2 := if tW1 < 300 then 300 else tW1
  let tH2 := if tH1 < 180 then 180 else tH1
  (tW2, tH2)

/-! Helper lemmas about the trimming primitives. -/

theorem dropWhile_len_le (p : Char → Bool) (s : List Char) :
    (s.dropWhile p).length ≤ s.length := by
  induction s with
  | nil => simp
  | cons c cs ih =>
    rw [List.dropWhile_cons]
    split
    · exact le_trans ih (Nat.le_succ _)
    · exact le_refl _

theorem dropWhile_eq_self_of_len (p : Char → Bool) (s : List Char)
    (h : (s.dropWhile p).length = s.length) : s.dropWhile p = s := by
  cases s with
  | nil => rfl
  | cons c cs =>
    rw [List.dropWhile_cons] at h ⊢
    by_cases hp : p c = true
    · rw [if_pos hp] at h ⊢
      exfalso
      have h1 := dropWhile_len_le p cs
      simp only [List.length_cons] at h
      omega
    · rw [if_neg hp]

theorem trim_stable_parts (s : List Char) (h : TrimAscii s = s) :
    s.dropWhile isAsciiWs = s ∧ s.reverse.dropWhile isAsciiWs = s.reverse := by
  unfold TrimAscii at h
  have hB : (s.dropWhile isAsciiWs).reverse.dropWhile isAsciiWs = s.reverse := by
    have h' := congrArg List.reverse h
    rwa [List.reverse_reverse] at h'
  have hlenB : ((s.dropWhile isAsciiWs).reverse.dropWhile isAsciiWs).length = s.length := by
    rw [hB, List.length_reverse]
  have h1 : ((s.dropWhile isAsciiWs).reverse.dropWhile isAsciiWs).length
      ≤ (s.dropWhile isAsciiWs).length := by
    have h' := dropWhile_len_le isAsciiWs (s.dropWhile isAsciiWs).reverse
    rwa [List.length_reverse] at h'
  have h2 := dropWhile_len_le isAsciiWs s
  have hA : s.dropWhile isAsciiWs = s := dropWhile_eq_self_of_len _ _ (by omega)
  refine ⟨hA, ?_⟩
  rw [hA] at hB
  exact hB

theorem head_of_dropWhile_eq_self (p : Char → Bool) (s : List Char)
    (h : s.dropWhile p = s) : ∀ c, s.head? = some c → p c = false := by
  intro c hc
  cases s with
  | nil => simp at hc
  | cons a cs =>
    simp only [List.head?_cons, Option.some.injEq] at hc
    rw [List.dropWhile_cons] at h
    by_cases hp : p a = true
    · rw [if_pos hp] at h
      exfalso
      have h1 := dropWhile_len_le p cs
      have h2 := congrArg List.length h
      simp only [List.length_cons] at h2
      omega
    · rw [← hc]
      simpa using hp

theorem trim_head_not_ws (s : List Char) (h : TrimAscii s = s) :
    ∀ c, s.head? = some c → isAsciiWs c = false :=
  head_of_dropWhile_eq_self _ _ (trim_stable_parts s h).1

theorem trim_last_not_ws (s : List Char) (h : TrimAscii s = s) :
    ∀ c, s.getLast? = some c → isAsciiWs c = false := by
  intro c hc
  have := head_of_dropWhile_eq_self _ _ (trim_stable_parts s h).2 c
  rw [List.head?_reverse] at this
  exact this hc

theorem trim_eq_self_of_ends (s : List Char)
    (h1 : ∀ c, s.head? = some c → isAsciiWs c = false)
    (h2 : ∀ c, s.getLast? = some c → isAsciiWs c = false) :
    TrimAscii s = s := by
  have hA : s.dropWhile isAsciiWs = s := by
    cases s with
    | nil => rfl
    | cons a cs =>
      rw [List.dropWhile_cons, if_neg]
      simp [h1 a rfl]
  have hB : s.reverse.dropWhile isAsciiWs = s.reverse := by
    cases hrev : s.reverse with
    | nil => rfl
    | cons a cs =>
      rw [List.dropWhile_cons, if_neg]
      have : s.getLast? = some a := by
        rw [← List.head?_reverse, hrev, List.head?_cons]
      simp [h2 a this]
  unfold TrimAscii
  rw [hA, hB, List.reverse_reverse]

theorem trim_cons_ws (c : Char) (s : List Char) (hc : isAsciiWs c = true) :
    TrimAscii (c :: s) = TrimAscii s := by
  unfold TrimAscii
  rw [List.dropWhile_cons, if_pos hc]

theorem getLast_append_ne_nil {α : Type} (l v : List α) (hv : v ≠ []) :
    (l ++ v).getLast? = v.getLast? := by
  rw [List.getLast?_append]
  cases hgl : v.getLast? with
  | none => exact absurd (List.getLast?_eq_none_iff.mp hgl) hv
  | some a => rfl

theorem stripCR_of_last_ne (l : List Char) (h : l.getLast? ≠ some '\r') :
    stripCR l = l := by
  simp [stripCR, h]

/-! Helper lemmas about the shared display state. -/

theorem applyPub_version (s : SharedState) (op : PubOp) :
    (applyPub s op).dataVersion = s.dataVersion + 1 := by
  cases op with
  | set t => simp [applyPub, SetLatestText]
  | app h t => simp [applyPub, AppendLiveLogLine]

theorem foldPub_version (ops : List PubOp) : ∀ s : SharedState,
    (ops.foldl applyPub s).dataVersion = s.dataVersion + ops.length := by
  induction ops with
  | nil => intro s; simp
  | cons op ops ih =>
    intro s
    rw [List.foldl_cons, ih, applyPub_version]
    simp only [List.length_cons]
    omega

theorem appendLive_log (s : SharedState) (h t : List Char) :
    (AppendLiveLogLine s h t).logLines =
      (if 400 < (s.logLines ++ [entryOf (h, t)]).length
       then (s.logLines ++ [entryOf (h, t)]).tail
       else s.logLines ++ [entryOf (h, t)]) := by
  simp [AppendLiveLogLine, entryOf]

theorem foldAppends_log (ps : List (List Char × List Char)) :
    ∀ s : SharedState, s.logLines.length ≤ 400 →
    (foldAppends s ps).logLines
        = (s.logLines ++ ps.map entryOf).drop (s.logLines.length + ps.length - 400)
      ∧ (foldAppends s ps).logLines.length ≤ 400 := by
  induction ps with
  | nil =>
    intro s hs
    simp only [foldAppends, List.foldl_nil, List.map_nil, List.append_nil, List.length_nil]
    constructor
    · rw [Nat.add_zero, Nat.sub_eq_zero_of_le hs, List.drop_zero]
    · exact hs
  | cons p ps ih =>
    intro s hs
    have hstep : (foldAppends s (p :: ps)) = foldAppends (AppendLiveLogLine s p.1 p.2) ps := by
      simp [foldAppends]
    by_cases hfull : s.logLines.length = 400
    · obtain ⟨c, rest, hrest⟩ : ∃ c rest, s.logLines = c :: rest := by
        cases hsl : s.logLines with
        | nil => rw [hsl] at hfull; simp at hfull
        | cons c rest => exact ⟨c, rest, rfl⟩
      have hlog : (AppendLiveLogLine s p.1 p.2).logLines = rest ++ [entryOf p] := by
        rw [appendLive_log]
        rw [if_pos]
        · rw [hrest]; simp
        · simp [hrest] at hfull ⊢
          omega
      have hlen : (AppendLiveLogLine s p.1 p.2).logLines.length = 400 := by
        rw [hlog]
        have := congrArg List.length hrest
        simp only [List.length_cons] at this
        simp [List.length_append]
        omega
      have ihr := ih (AppendLiveLogLine s p.1 p.2) (le_of_eq hlen)
      rw [hstep]
      refine ⟨?_, ihr.2⟩
      rw [ihr.1, hlog, hrest]
      have hrlen : rest.length = 399 := by
        have h' := congrArg List.length hrest
        simp only [List.length_cons] at h'
        omega
      have hidx1 : (rest ++ [entryOf p]).length + ps.length - 400 = ps.length := by
        simp only [List.length_append, List.length_cons, List.length_nil]
        omega
      have hidx2 : (c :: rest).length + (p :: ps).length - 400 = ps.length + 1 := by
        simp only [List.length_cons]
        omega
      rw [hidx1, hidx2, List.map_cons, List.cons_append, List.drop_succ_cons,
        List.append_assoc, List.singleton_append]
    · have hlog : (AppendLiveLogLine s p.1 p.2).logLines = s.logLines ++ [entryOf p] := by
        rw [appendLive_log, if_neg]
        simp only [List.length_append, List.length_cons, List.length_nil, not_lt]
        omega
      have hlen : (AppendLiveLogLine s p.1 p.2).logLines.length ≤ 400 := by
        rw [hlog]
        simp only [List.length_append, List.length_cons, List.length_nil]
        omega
      have ihr := ih (AppendLiveLogLine s p.1 p.2) hlen
      rw [hstep]
      refine ⟨?_, ihr.2⟩
      rw [ihr.1, hlog]
      have hidx : (s.logLines ++ [entryOf p]).length + ps.length - 400
          = s.logLines.length + (p :: ps).length - 400 := by
        simp only [List.length_append, List.length_cons, List.length_nil]
        omega
      rw [hidx, List.append_assoc, List.singleton_append, List.map_cons]

theorem foldPubLatest (stod : List Char → StodOut) (tz : Int → Int)
    (evs : List (List Char × List Char)) :
    ∀ (s : SharedState) (e : List Char × List Char), evs.getLast? = some e →
      (evs.foldl (pubAppend stod tz) s).latestText
        = (if TrimAscii e.2 = [] then kRecordingActive else TrimAscii e.2) := by
  induction evs with
  | nil => intro s e he; simp at he
  | cons a evs ih =>
    intro s e he
    cases evs with
    | nil =>
      simp only [List.getLast?_singleton, Option.some.injEq] at he
      rw [← he]
      simp [pubAppend, AppendLiveLogLine]
    | cons b evs' =>
      rw [List.getLast?_cons_cons] at he
      rw [List.foldl_cons]
      exact ih _ e he

/-! Helper lemmas about the line loop. -/

theorem flushEvent_of_no_text (st : ParserState) (h : st.hasText = false) :
    flushEvent st = ({ st with eventId := [] }, []) := by
  simp [flushEvent, h]

theorem processLine_no_text (st : ParserState) (h : st.hasText = false) (l : List Char) :
    ((processLine st l).2).map Prod.snd = (textValueOfLine l).toList
      ∧ (processLine st l).1.hasText = false := by
  unfold processLine textValueOfLine
  by_cases h1 : stripCR l = []
  · simp [h1, flushEvent, h]
  · by_cases h2 : startsWith kIdTag (stripCR l) = true
    · simp [h1, h2, flushEvent, h]
    · by_cases h3 : startsWith kDataTag (stripCR l) = true
      · cases hfi : findColonIdx (TrimAscii ((stripCR l).drop 5)) with
        | none => simp [h1, h2, h3, hfi, h]
        | some i =>
          by_cases h4 :
              TrimAscii ((TrimAscii ((stripCR l).drop 5)).take i) = kTextKey
          · simp [h1, h2, h3, hfi, h4, flushEvent, h]
          · simp [h1, h2, h3, hfi, h4, h]
      · simp [h1, h2, h3, h]

theorem feedLines_texts (ls : List (List Char)) : ∀ st : ParserState, st.hasText = false →
    ((feedLines st ls).2).map Prod.snd = ls.filterMap textValueOfLine
      ∧ (feedLines st ls).1.hasText = false := by
  induction ls with
  | nil => intro st h; simpa [feedLines] using h
  | cons l ls ih =>
    intro st h
    have hp := processLine_no_text st h l
    have hr := ih (processLine st l).1 hp.2
    refine ⟨?_, by simpa [feedLines] using hr.2⟩
    show ((processLine st l).2 ++ (feedLines (processLine st l).1 ls).2).map Prod.snd
        = List.filterMap textValueOfLine (l :: ls)
    rw [List.map_append, hp.1, hr.1, List.filterMap_cons]
    cases textValueOfLine l with
    | none => simp
    | some v => simp

theorem runSubscribe_eq (stod : List Char → StodOut) (tz : Int → Int)
    (ls : List (List Char)) :
    ∀ (pst : ParserState) (sst : SharedState),
      runSubscribe stod tz pst sst ls
        = ((feedLines pst ls).1, (feedLines pst ls).2.foldl (pubAppend stod tz) sst) := by
  induction ls with
  | nil => intro pst sst; simp [runSubscribe, feedLines]
  | cons l ls ih =>
    intro pst sst
    show runSubscribe stod tz (processLine pst l).1
        ((processLine pst l).2.foldl (pubAppend stod tz) sst) ls = _
    rw [ih]
    show _ = ((feedLines (processLine pst l).1 ls).1,
      ((processLine pst l).2 ++ (feedLines (processLine pst l).1 ls).2).foldl
        (pubAppend stod tz) sst)
    rw [List.foldl_append]

/-! Helper lemmas about the scroll state and the layout bounds. -/

theorem clamp_bounds (o m : ℚ) (hm : 0 ≤ m) :
    0 ≤ (if m < (if o < 0 then 0 else o) then m else (if o < 0 then 0 else o))
      ∧ (if m < (if o < 0 then 0 else o) then m else (if o < 0 then 0 else o)) ≤ m := by
  by_cases h1 : o < 0
  · simp only [if_pos h1]
    by_cases h2 : m < (0 : ℚ)
    · simp only [if_pos h2]; exact ⟨hm, le_refl m⟩
    · simp only [if_neg h2]; exact ⟨le_refl 0, hm⟩
  · simp only [if_neg h1]
    by_cases h2 : m < o
    · simp only [if_pos h2]; exact ⟨hm, le_refl m⟩
    · simp only [if_neg h2]; exact ⟨le_of_not_lt h1, le_of_not_lt h2⟩

theorem wheelStep_inv (st : ScrollState) (d : Int)
    (h : 0 ≤ st.scrollOffsetPx ∧ st.scrollOffsetPx ≤ st.maxScrollOffsetPx
      ∧ 0 ≤ st.maxScrollOffsetPx) :
    0 ≤ (wheelStep st d).scrollOffsetPx
      ∧ (wheelStep st d).scrollOffsetPx ≤ (wheelStep st d).maxScrollOffsetPx
      ∧ 0 ≤ (wheelStep st d).maxScrollOffsetPx := by
  obtain ⟨h1, h2, h3⟩ := h
  by_cases hs : (st.wheelRemainder + d).tdiv 120 ≠ 0
  · have hc := clamp_bounds (st.scrollOffsetPx + ((st.wheelRemainder + d).tdiv 120 : ℚ) * 36)
      st.maxScrollOffsetPx h3
    simp only [wheelStep, if_pos hs]
    exact ⟨hc.1, hc.2, h3⟩
  · simp only [wheelStep, if_neg hs]
    exact ⟨h1, h2, h3⟩

theorem layoutStep_inv (st : ScrollState) (th vh : ℚ) :
    0 ≤ (layoutStep st th vh).scrollOffsetPx
      ∧ (layoutStep st th vh).scrollOffsetPx ≤ (layoutStep st th vh).maxScrollOffsetPx
      ∧ 0 ≤ (layoutStep st th vh).maxScrollOffsetPx := by
  have hm : (0 : ℚ) ≤ max 0 (th - max 1 vh) := le_max_left _ _
  have hc := clamp_bounds st.scrollOffsetPx (max 0 (th - max 1 vh)) hm
  simp only [layoutStep]
  exact ⟨hc.1, hc.2, hm⟩

theorem foldScroll_inv (evs : List ScrollEv) : ∀ st : ScrollState,
    (0 ≤ st.scrollOffsetPx ∧ st.scrollOffsetPx ≤ st.maxScrollOffsetPx
      ∧ 0 ≤ st.maxScrollOffsetPx) →
    (0 ≤ (evs.foldl scrollStep st).scrollOffsetPx
      ∧ (evs.foldl scrollStep st).scrollOffsetPx ≤ (evs.foldl scrollStep st).maxScrollOffsetPx
      ∧ 0 ≤ (evs.foldl scrollStep st).maxScrollOffsetPx) := by
  induction evs with
  | nil => intro st h; simpa using h
  | cons e evs ih =>
    intro st h
    rw [List.foldl_cons]
    cases e with
    | wheel d => exact ih _ (wheelStep_inv st d h)
    | layout th vh => exact ih _ (layoutStep_inv st th vh)

theorem MaxWidthForMonitor_ge (w : ℚ) : 300 ≤ MaxWidthForMonitor w := by
  simp only [MaxWidthForMonitor]
  split_ifs with h
  · exact le_refl _
  · linarith

theorem MaxHeightForMonitor_ge (h : ℚ) : 180 ≤ MaxHeightForMonitor h := by
  simp only [MaxHeightForMonitor]
  split_ifs with h1
  · exact le_refl _
  · linarith

/-! Helper lemmas about the clock rendering. -/

theorem digitChar_isDigit : ∀ k : Nat, k < 10 → (Char.ofNat (48 + k)).isDigit = true := by
  decide

theorem formatHHMMSS_clock (tz : Int → Int) (sec : Int) :
    looksLikeClock (formatHHMMSS tz sec) = true := by
  have ha1 : 0 ≤ ((sec + tz sec).ediv 3600).emod 24 := Int.emod_nonneg _ (by norm_num)
  have ha2 : ((sec + tz sec).ediv 3600).emod 24 < 24 := Int.emod_lt_of_pos _ (by norm_num)
  have hb1 : 0 ≤ ((sec + tz sec).ediv 60).emod 60 := Int.emod_nonneg _ (by norm_num)
  have hb2 : ((sec + tz sec).ediv 60).emod 60 < 60 := Int.emod_lt_of_pos _ (by norm_num)
  have hc1 : 0 ≤ (sec + tz sec).emod 60 := Int.emod_nonneg _ (by norm_num)
  have hc2 : (sec + tz sec).emod 60 < 60 := Int.emod_lt_of_pos _ (by norm_num)
  have d1 := digitChar_isDigit ((((sec + tz sec).ediv 3600).emod 24).toNat / 10) (by omega)
  have d2 := digitChar_isDigit ((((sec + tz sec).ediv 3600).emod 24).toNat % 10) (by omega)
  have d3 := digitChar_isDigit ((((sec + tz sec).ediv 60).emod 60).toNat / 10) (by omega)
  have d4 := digitChar_isDigit ((((sec + tz sec).ediv 60).emod 60).toNat % 10) (by omega)
  have d5 := digitChar_isDigit (((sec + tz sec).emod 60).toNat / 10) (by omega)
  have d6 := digitChar_isDigit (((sec + tz sec).emod 60).toNat % 10) (by omega)
  simp [formatHHMMSS, twoDig, looksLikeClock, d1, d2, d3, d4, d5, d6]

/-! Claim theorems. -/

/-- C1: for every sequence of complete protocol lines fed to the line
loop of SubscribeLoop, the emitted event texts are exactly, in arrival
order, the unescaped trimmed values of the data lines whose key is text
(one emission per such line, so each text-carrying event is emitted
exactly once); lines with an id but no text contribute nothing, blank and
unrecognized lines contribute nothing (the trailing flush after the read
loop also emits nothing); and each emission is delivered through exactly
one AppendLiveLogLine call, in order. -/
theorem c1_event_emission (lines : List (List Char)) (stod : List Char → StodOut)
    (tz : Int → Int) (sst : SharedState) :
    ((feedLines initParser lines).2).map Prod.snd = lines.filterMap textValueOfLine
    ∧ (flushEvent (feedLines initParser lines).1).2 = []
    ∧ (runSubscribe stod tz initParser sst lines).2
        = (feedLines initParser lines).2.foldl (pubAppend stod tz) sst := by
  have h := feedLines_texts lines initParser rfl
  refine ⟨h.1, ?_, ?_⟩
  · rw [flushEvent_of_no_text _ h.2]
  · rw [runSubscribe_eq]

/-- C4: the shared version counter is bumped exactly once by every
publish call (SetLatestText or AppendLiveLogLine), hence over any
sequence of publish calls it grows by exactly the number of calls -
strictly increasing, never decreasing; and a snapshot taken twice with no
intervening mutation returns equal version and content. -/
theorem c4_version_monotonic (s : SharedState) (ops : List PubOp) :
    (∀ op, (applyPub s op).dataVersion = s.dataVersion + 1)
    ∧ (ops.foldl applyPub s).dataVersion = s.dataVersion + ops.length
    ∧ snapshot (([] : List PubOp).foldl applyPub s) = snapshot s :=
  ⟨fun op => applyPub_version s op, foldPub_version ops s, rfl⟩
/-- C5 counterexample: SetLatestText does not append a LogLine. Calling
it on the initial state leaves the scrollback log empty, not of length
one as the claim requires. -/
theorem c5_counterexample :
    (SetLatestText initState ['h', 'i']).logLines = []
    ∧ ¬ (SetLatestText initState ['h', 'i']).logLines.length = 1 := by
  decide

/-- C5 amended: SetLatestText sets latestText to the given text (with the
sentinel substituted for an empty string) and increments dataVersion by
one, leaving the scrollback log untouched; log appends happen only
through AppendLiveLogLine, which defaults the stamp to the dashes marker
when no stamp is supplied, and evicts the oldest entry when the capacity
of 400 is exceeded (the log grows to at most 400, and the newest entry is
always the one just appended). -/
theorem c5_amended (s : SharedState) (t h x : List Char)
    (hlen : s.logLines.length ≤ 400) :
    (SetLatestText s t).latestText = (if t = [] then kRecordingActive else t)
    ∧ (SetLatestText s t).logLines = s.logLines
    ∧ (SetLatestText s t).dataVersion = s.dataVersion + 1
    ∧ (AppendLiveLogLine s h x).logLines.length = min (s.logLines.length + 1) 400
    ∧ (AppendLiveLogLine s [] x).logLines.getLast? = some (entryOf ([], x)) := by
  refine ⟨rfl, rfl, rfl, ?_, ?_⟩
  · rw [appendLive_log]
    by_cases hfull : 400 < (s.logLines ++ [entryOf (h, x)]).length
    · rw [if_pos hfull]
      simp only [List.length_tail, List.length_append, List.length_cons, List.length_nil] at *
      omega
    · rw [if_neg hfull]
      simp only [List.length_append, List.length_cons, List.length_nil] at *
      omega
  · rw [appendLive_log]
    by_cases hfull : 400 < (s.logLines ++ [entryOf ([], x)]).length
    · rw [if_pos hfull]
      obtain ⟨c, rest, hrest⟩ : ∃ c rest, s.logLines = c :: rest := by
        cases hsl : s.logLines with
        | nil => rw [hsl] at hfull; simp at hfull
        | cons c rest => exact ⟨c, rest, rfl⟩
      rw [hrest]
      rw [List.cons_append, List.tail_cons]
      rw [getLast_append_ne_nil rest [entryOf ([], x)] (by simp)]
      simp
    · rw [if_neg hfull]
      rw [getLast_append_ne_nil s.logLines [entryOf ([], x)] (by simp)]
      simp

/-- C5 witness: the amended theorem applied at the initial state. -/
theorem c5_witness :
    (AppendLiveLogLine initState [] ['x']).logLines.getLast? = some (entryOf ([], ['x'])) :=
  (c5_amended initState ['h', 'i'] [] ['x'] (by decide)).2.2.2.2

/-- C6 counterexample: a whitespace-only file trims to the empty string,
which differs from the stored latestText of the initial state, yet
PollInputFile leaves the state entirely unchanged - the claimed "if and
only if the trimmed content differs" fails because the empty trim is
first replaced by the sentinel. -/
theorem c6_counterexample :
    TrimAscii [' '] ≠ initState.latestText
    ∧ PollInputFile (some [' ']) initState = initState := by
  decide

/-- C6 amended: on a failed read PollInputFile leaves the state
unchanged; on a successful read it never touches the log, and it updates
latestText and increments dataVersion exactly when the normalized content
(trimmed, with the sentinel substituted for an empty trim) differs from
the stored latestText. -/
theorem c6_amended (s : SharedState) (c : List Char) :
    PollInputFile none s = s
    ∧ (PollInputFile (some c) s).logLines = s.logLines
    ∧ (normalizePoll c = s.latestText → PollInputFile (some c) s = s)
    ∧ (normalizePoll c ≠ s.latestText →
        (PollInputFile (some c) s).latestText = normalizePoll c
        ∧ (PollInputFile (some c) s).dataVersion = s.dataVersion + 1) := by
  by_cases h : normalizePoll c = s.latestText
  · refine ⟨rfl, ?_, fun _ => ?_, fun hne => absurd h hne⟩
    · simp [PollInputFile, h]
    · simp [PollInputFile, h]
  · refine ⟨rfl, ?_, fun heq => absurd heq h, fun _ => ⟨?_, ?_⟩⟩
    · simp [PollInputFile, h]
    · simp [PollInputFile, h]
    · simp [PollInputFile, h]

/-- C6 witness: the amended theorem applied at the initial state with
content that differs after normalization. -/
theorem c6_witness :
    (PollInputFile (some ['x']) initState).latestText = normalizePoll ['x']
    ∧ (PollInputFile (some ['x']) initState).dataVersion = initState.dataVersion + 1 :=
  (c6_amended initState ['x']).2.2.2 (by decide)

/-- C7: after any sequence of wheel events and layout passes from the
initial scroll state, the offset lies in [0, maxScrollOffsetPx]; and
whenever a layout pass recomputes a maximum smaller than the stored
offset, the clamp reduces the offset to exactly the new maximum. -/
theorem c7_scroll_clamped (evs : List ScrollEv) :
    (0 ≤ (evs.foldl scrollStep initScroll).scrollOffsetPx
      ∧ (evs.foldl scrollStep initScroll).scrollOffsetPx
          ≤ (evs.foldl scrollStep initScroll).maxScrollOffsetPx)
    ∧ (∀ (st : ScrollState) (th vh : ℚ),
        (layoutStep st th vh).maxScrollOffsetPx < st.scrollOffsetPx →
          (layoutStep st th vh).scrollOffsetPx = (layoutStep st th vh).maxScrollOffsetPx) := by
  constructor
  · have h := foldScroll_inv evs initScroll (by norm_num [initScroll])
    exact ⟨h.1, h.2.1⟩
  · intro st th vh hlt
    simp only [layoutStep] at hlt ⊢
    by_cases h1 : st.scrollOffsetPx < 0
    · exfalso
      have hm : (0 : ℚ) ≤ max 0 (th - max 1 vh) := le_max_left _ _
      linarith
    · rw [if_neg h1, if_pos hlt]

/-- C7 witness: a layout pass whose recomputed maximum (20) is below the
stored offset (50) clamps the offset to the maximum. -/
theorem c7_witness :
    (layoutStep { scrollOffsetPx := 50, maxScrollOffsetPx := 100, wheelRemainder := 0 } 30 10).scrollOffsetPx
      = (layoutStep { scrollOffsetPx := 50, maxScrollOffsetPx := 100, wheelRemainder := 0 } 30 10).maxScrollOffsetPx :=
  (c7_scroll_clamped []).2 _ 30 10 (by norm_num [layoutStep])
/-- C8 counterexample: at font size 42 on a large monitor,
ApplyWindowSizeForFont produces a panel width of 1575, far above the
claimed maximum width of 567; and on a 200-wide work area,
ComputeDesiredWidth returns 300, exceeding the monitor's available width
of 150. -/
theorem c8_counterexample :
    ¬ (ApplyWindowSizeForFont 42 3000 3000).1 ≤ 567
    ∧ ¬ ComputeDesiredWidth 0 200 ≤ 200 - 30 - 20 := by
  constructor
  · norm_num [ApplyWindowSizeForFont, MaxWidthForMonitor, MaxHeightForMonitor]
  · norm_num [ComputeDesiredWidth, MaxWidthForMonitor]

/-- ComputeDesiredWidth always lands in [300, 567] and never exceeds the
monitor cap MaxWidthForMonitor (which itself floors at 300). -/
theorem ComputeDesiredWidth_bounds (m w : ℚ) :
    300 ≤ ComputeDesiredWidth m w ∧ ComputeDesiredWidth m w ≤ 567
      ∧ ComputeDesiredWidth m w ≤ MaxWidthForMonitor w := by
  have hW := MaxWidthForMonitor_ge w
  simp only [ComputeDesiredWidth]
  split_ifs <;> refine ⟨?_, ?_, ?_⟩ <;> linarith

/-- ComputeHeightForText always lands in [180, 2000]; it consults no
monitor bound. -/
theorem ComputeHeightForText_bounds (mh mt : ℚ) :
    180 ≤ ComputeHeightForText mh mt ∧ ComputeHeightForText mh mt ≤ 2000 := by
  simp only [ComputeHeightForText]
  split_ifs <;> refine ⟨?_, ?_⟩ <;> linarith

/-- ApplyWindowSizeForFont lands in [300, MaxWidthForMonitor] by
[180, MaxHeightForMonitor]; above the font threshold it may exceed the
567 x 340 base size up to the monitor caps. -/
theorem ApplyWindowSizeForFont_bounds (f w h : ℚ) :
    300 ≤ (ApplyWindowSizeForFont f w h).1
    ∧ (ApplyWindowSizeForFont f w h).1 ≤ MaxWidthForMonitor w
    ∧ 180 ≤ (ApplyWindowSizeForFont f w h).2
    ∧ (ApplyWindowSizeForFont f w h).2 ≤ MaxHeightForMonitor h := by
  have hW := MaxWidthForMonitor_ge w
  have hH := MaxHeightForMonitor_ge h
  simp only [ApplyWindowSizeForFont]
  split_ifs <;> refine ⟨?_, ?_, ?_, ?_⟩ <;> linarith

/-- C8 amended: ComputeDesiredWidth stays within [300, 567] and within
the monitor cap MaxWidthForMonitor; ComputeHeightForText stays within
[180, 2000] but applies no monitor clamp; ApplyWindowSizeForFont stays
within the monitor caps and above the 300 x 180 minima but may exceed
567 in width (and 340 in height) when the font size exceeds 24, since
the growth is clamped only against the monitor. The monitor caps
themselves floor at the minima, so on a work area smaller than the
minima the computed sizes exceed the monitor bounds. -/
theorem c8_amended (m w h mh mt f : ℚ) :
    (300 ≤ ComputeDesiredWidth m w ∧ ComputeDesiredWidth m w ≤ 567
      ∧ ComputeDesiredWidth m w ≤ MaxWidthForMonitor w)
    ∧ (180 ≤ ComputeHeightForText mh mt ∧ ComputeHeightForText mh mt ≤ 2000)
    ∧ (300 ≤ (ApplyWindowSizeForFont f w h).1
      ∧ (ApplyWindowSizeForFont f w h).1 ≤ MaxWidthForMonitor w
      ∧ 180 ≤ (ApplyWindowSizeForFont f w h).2
      ∧ (ApplyWindowSizeForFont f w h).2 ≤ MaxHeightForMonitor h) :=
  ⟨ComputeDesiredWidth_bounds m w, ComputeHeightForText_bounds mh mt,
    ApplyWindowSizeForFont_bounds f w h⟩

/-- C9 amended: over the std::stod outcome oracle, HumanTimeFromUnixText
returns the dashes marker exactly when the id token is empty, the
conversion throws (no conversion possible, or out of range), the
conversion returns an infinity or a NaN, or the returned value is
non-positive or truncates past the Windows localtime bound (23:59:59,
December 31, 3000, UTC); for every other returned value the result is
the local HH:MM:SS clock rendering of the truncated value. For an id
consisting solely of decimal digits with value N, under the documented
std::stod facts on digit strings (a value up to the localtime bound,
far below two to the 53rd, converts exactly; a larger value either
throws on overflow or returns a correctly rounded double that still
truncates past the bound), the stamp is the clock rendering of N
exactly when N is between one and the bound, and dashes otherwise. The
corrections over the original claim: a zero or negative value, a value
past the localtime range, and a throwing or non-finite conversion all
yield dashes, not only the empty or unconvertible ids. -/
theorem c9_amended (stod : List Char → StodOut) (tz : Int → Int) (s : List Char) :
    (HumanTimeFromUnixText stod tz s = kDashes
      ↔ (s = [] ∨ stod s = .throws ∨ stod s = .nonFinite
          ∨ ∃ v : ℚ, stod s = .val v ∧ (v ≤ 0 ∨ kMaxLocalTime < ⌊v⌋)))
    ∧ (∀ v : ℚ, s ≠ [] → stod s = .val v → 0 < v → ⌊v⌋ ≤ kMaxLocalTime →
        HumanTimeFromUnixText stod tz s = formatHHMMSS tz ⌊v⌋
        ∧ looksLikeClock (HumanTimeFromUnixText stod tz s) = true)
    ∧ (∀ ds : List Char, ds ≠ [] → ds.all Char.isDigit = true →
        ((digitsVal ds : Int) ≤ kMaxLocalTime → stod ds = .val (digitsVal ds : ℚ)) →
        (kMaxLocalTime < (digitsVal ds : Int) →
          stod ds = .throws ∨ ∃ v : ℚ, stod ds = .val v ∧ kMaxLocalTime < ⌊v⌋) →
        ((1 ≤ digitsVal ds ∧ (digitsVal ds : Int) ≤ kMaxLocalTime →
            HumanTimeFromUnixText stod tz ds = formatHHMMSS tz (digitsVal ds : Int))
          ∧ (digitsVal ds = 0 ∨ kMaxLocalTime < (digitsVal ds : Int) →
            HumanTimeFromUnixText stod tz ds = kDashes))) := by
  refine ⟨?_, ?_, ?_⟩
  · constructor
    · intro hda
      by_cases h1 : s = []
      · exact Or.inl h1
      · cases hv : stod s with
        | throws => exact Or.inr (Or.inl rfl)
        | nonFinite => exact Or.inr (Or.inr (Or.inl rfl))
        | val v =>
          by_cases hle : v ≤ 0
          · exact Or.inr (Or.inr (Or.inr ⟨v, rfl, Or.inl hle⟩))
          · by_cases hmax : kMaxLocalTime < ⌊v⌋
            · exact Or.inr (Or.inr (Or.inr ⟨v, rfl, Or.inr hmax⟩))
            · exfalso
              have heq : HumanTimeFromUnixText stod tz s = formatHHMMSS tz ⌊v⌋ := by
                simp [HumanTimeFromUnixText, h1, hv, hle, hmax]
              rw [heq] at hda
              have hcl := formatHHMMSS_clock tz ⌊v⌋
              rw [hda] at hcl
              exact absurd hcl (by decide)
    · intro hsrc
      by_cases h1 : s = []
      · simp [HumanTimeFromUnixText, h1]
      · rcases hsrc with h | h2 | h3 | ⟨v, hv, hcase⟩
        · exact absurd h h1
        · simp [HumanTimeFromUnixText, h1, h2]
        · simp [HumanTimeFromUnixText, h1, h3]
        · rcases hcase with hle | hmax
          · simp [HumanTimeFromUnixText, h1, hv, hle]
          · by_cases hle : v ≤ 0
            · simp [HumanTimeFromUnixText, h1, hv, hle]
            · simp [HumanTimeFromUnixText, h1, hv, hle, hmax]
  · intro v h1 hv hpos hmax
    have heq : HumanTimeFromUnixText stod tz s = formatHHMMSS tz ⌊v⌋ := by
      simp [HumanTimeFromUnixText, h1, hv, not_le.mpr hpos, not_lt.mpr hmax]
    refine ⟨heq, ?_⟩
    rw [heq]
    exact formatHHMMSS_clock tz ⌊v⌋
  · intro ds hne hdig hsmall hlarge
    constructor
    · rintro ⟨h1N, h2N⟩
      have hv := hsmall h2N
      have hpos : (0 : ℚ) < (digitsVal ds : ℚ) := by exact_mod_cast h1N
      have hfl : ⌊(digitsVal ds : ℚ)⌋ = (digitsVal ds : Int) := Int.floor_natCast _
      have hmax : ¬ kMaxLocalTime < (digitsVal ds : Int) := not_lt.mpr h2N
      simp [HumanTimeFromUnixText, hne, hv, not_le.mpr hpos, hfl, hmax]
    · rintro (h0 | hbig)
      · have hv := hsmall (by rw [h0]; norm_num [kMaxLocalTime])
        rw [h0] at hv
        simp [HumanTimeFromUnixText, hne, hv]
      · rcases hlarge hbig with hthrow | ⟨v, hv, hmax⟩
        · simp [HumanTimeFromUnixText, hne, hthrow]
        · by_cases hle : v ≤ 0
          · simp [HumanTimeFromUnixText, hne, hv, hle]
          · simp [HumanTimeFromUnixText, hne, hv, hle, hmax]

/-- C9 counterexample: the token "0" is neither empty nor unconvertible
(std::stod converts it, exactly, to zero - a documented conversion with
no rounding involved), yet HumanTimeFromUnixText returns the dashes
marker because the converted value is not positive, contradicting the
claimed "exactly when absent or unparseable". -/
theorem c9_counterexample :
    ¬ ((['0'] : List Char) = []
      ∨ (fun _ : List Char => StodOut.val 0) ['0'] = StodOut.throws)
    ∧ HumanTimeFromUnixText (fun _ => StodOut.val 0) (fun _ => 0) ['0'] = kDashes := by
  constructor
  · intro hsrc
    rcases hsrc with h | h
    · simp at h
    · simp at h
  · simp [HumanTimeFromUnixText]

/-- C9 witness: the amended theorem applied to the digit token "90000",
which converts exactly to 90000 seconds, within the localtime range, and
renders as the clock stamp of that timestamp. -/
theorem c9_witness :
    HumanTimeFromUnixText (fun _ => StodOut.val 90000) (fun _ => 0) ['9', '0', '0', '0', '0']
      = formatHHMMSS (fun _ => 0) 90000 := by
  have hdv : digitsVal ['9', '0', '0', '0', '0'] = 90000 := by decide
  have h := ((c9_amended (fun _ => StodOut.val 90000) (fun _ => 0)
      ['9', '0', '0', '0', '0']).2.2 ['9', '0', '0', '0', '0'] (by decide) (by decide)
      (fun _ => by rw [hdv]; norm_num)
      (fun hcontra => absurd hcontra (by rw [hdv]; norm_num [kMaxLocalTime]))).1
      ⟨by rw [hdv]; norm_num, by rw [hdv]; norm_num [kMaxLocalTime]⟩
  rw [h, hdv]
  norm_num

/-- The head of a dropWhile result never satisfies the dropped
predicate. -/
theorem dropWhile_head_false (p : Char → Bool) (s : List Char) :
    ∀ c, (s.dropWhile p).head? = some c → p c = false := by
  induction s with
  | nil => intro c hc; simp at hc
  | cons a cs ih =>
    intro c hc
    rw [List.dropWhile_cons] at hc
    by_cases hp : p a = true
    · rw [if_pos hp] at hc
      exact ih c hc
    · rw [if_neg hp] at hc
      simp only [List.head?_cons, Option.some.injEq] at hc
      rw [← hc]
      simpa using hp

/-- Sufficient condition for noEdgeWs from head and last facts. -/
theorem noEdgeWs_of (l : List Char)
    (h1 : ∀ c, l.head? = some c → isAsciiWs c = false)
    (h2 : ∀ c, l.getLast? = some c → isAsciiWs c = false) :
    noEdgeWs l = true := by
  unfold noEdgeWs
  rw [Bool.and_eq_true]
  constructor
  · cases hh : l.head? with
    | none => rfl
    | some c => simp [h1 c hh]
  · cases hg : l.getLast? with
    | none => rfl
    | some c => simp [h2 c hg]

/-- A TrimAscii result never starts or ends with a whitespace
character. -/
theorem trimAscii_noEdgeWs (s : List Char) : noEdgeWs (TrimAscii s) = true := by
  apply noEdgeWs_of
  · intro c hc
    unfold TrimAscii at hc
    rw [List.head?_reverse] at hc
    have hBne : (s.dropWhile isAsciiWs).reverse.dropWhile isAsciiWs ≠ [] := by
      intro h0
      rw [h0] at hc
      simp at hc
    obtain ⟨tl, htl⟩ :=
      List.dropWhile_suffix (l := (s.dropWhile isAsciiWs).reverse) isAsciiWs
    have hlast : ((s.dropWhile isAsciiWs).reverse.dropWhile isAsciiWs).getLast?
        = (s.dropWhile isAsciiWs).reverse.getLast? := by
      conv_rhs => rw [← htl]
      exact (getLast_append_ne_nil tl _ hBne).symm
    rw [hlast, List.getLast?_reverse] at hc
    exact dropWhile_head_false isAsciiWs s c hc
  · intro c hc
    unfold TrimAscii at hc
    rw [List.getLast?_reverse] at hc
    exact dropWhile_head_false isAsciiWs _ c hc

/-- The latestText stored by AppendLiveLogLine never carries surrounding
whitespace: it is either a TrimAscii result or the sentinel. -/
theorem appendLive_noEdgeWs (s : SharedState) (h t : List Char) :
    noEdgeWs ((AppendLiveLogLine s h t).latestText) = true := by
  show noEdgeWs (if TrimAscii t = [] then kRecordingActive else TrimAscii t) = true
  by_cases ht : TrimAscii t = []
  · rw [if_pos ht]
    decide
  · rw [if_neg ht]
    exact trimAscii_noEdgeWs t

/-- The loop body on a data line whose trimmed key is text: exactly one
event is emitted, carrying the pending id and the unescaped trimmed
value. -/
theorem processLine_data_text (st : ParserState)
    (raw : List Char) (hcr : raw.getLast? ≠ some '\r')
    (i : Nat) (hfind : findColonIdx (TrimAscii raw) = some i)
    (hkey : TrimAscii ((TrimAscii raw).take i) = kTextKey) :
    (processLine st (kDataTag ++ raw)).2
      = [(st.eventId, unescapeNl (TrimAscii ((TrimAscii raw).drop (i + 1))))] := by
  have hraw_ne : raw ≠ [] := by
    intro h0
    rw [h0] at hfind
    simp [TrimAscii, findColonIdx] at hfind
  have h1 : stripCR (kDataTag ++ raw) = kDataTag ++ raw := by
    apply stripCR_of_last_ne
    rw [getLast_append_ne_nil kDataTag raw hraw_ne]
    exact hcr
  have hne : ¬ (kDataTag ++ raw = []) := by simp [kDataTag]
  have hid : ¬ (startsWith kIdTag (kDataTag ++ raw) = true) := by
    simp [kIdTag, kDataTag, startsWith]
  have hdat : startsWith kDataTag (kDataTag ++ raw) = true := by
    simp [kDataTag, startsWith]
  have hdrop : (kDataTag ++ raw).drop 5 = raw := by simp [kDataTag]
  simp only [processLine, h1]
  rw [if_neg hne, if_neg hid, if_pos hdat, hdrop, hfind]
  simp [hkey, flushEvent]

/-- The last element of a list is a member. -/
theorem mem_of_getLast?_eq {α : Type} (l : List α) (t : α) (h : l.getLast? = some t) :
    t ∈ l := by
  induction l with
  | nil => simp at h
  | cons a l ih =>
    cases l with
    | nil =>
      rw [List.getLast?_singleton] at h
      simp only [Option.some.injEq] at h
      rw [h]
      exact List.mem_singleton_self t
    | cons b l' =>
      rw [List.getLast?_cons_cons] at h
      exact List.mem_cons_of_mem a (ih h)

/-- A trim-stable string cannot end in a carriage return. -/
theorem last_ne_cr (v : List Char) (hv : TrimAscii v = v) : v.getLast? ≠ some '\r' := by
  intro h
  have := trim_last_not_ws v hv '\r' h
  simp [isAsciiWs] at this

/-- A wire line "data: text: v" with a trim-stable, escape-free,
nonempty value v parses to the text value v. -/
theorem textValueOfLine_textLine (v : List Char)
    (hv : TrimAscii v = v) (hne : v ≠ []) (hun : unescapeNl v = v) :
    textValueOfLine (kDataTextPre ++ v) = some v := by
  have h1 : stripCR (kDataTextPre ++ v) = kDataTextPre ++ v := by
    apply stripCR_of_last_ne
    rw [getLast_append_ne_nil kDataTextPre v hne]
    exact last_ne_cr v hv
  have hblank : ¬ (kDataTextPre ++ v = []) := by simp [kDataTextPre]
  have hid : ¬ (startsWith kIdTag (kDataTextPre ++ v) = true) := by
    simp [kIdTag, kDataTextPre, startsWith]
  have hdat : startsWith kDataTag (kDataTextPre ++ v) = true := by
    simp [kDataTag, kDataTextPre, startsWith]
  have hdrop : (kDataTextPre ++ v).drop 5 = [' ', 't', 'e', 'x', 't', ':', ' '] ++ v := by
    simp [kDataTextPre]
  have hpay : TrimAscii ([' ', 't', 'e', 'x', 't', ':', ' '] ++ v)
      = ['t', 'e', 'x', 't', ':', ' '] ++ v := by
    rw [show ([' ', 't', 'e', 'x', 't', ':', ' '] ++ v)
        = ' ' :: (['t', 'e', 'x', 't', ':', ' '] ++ v) from rfl]
    rw [trim_cons_ws _ _ (by decide)]
    apply trim_eq_self_of_ends
    · intro c hc
      simp only [List.cons_append, List.head?_cons, Option.some.injEq] at hc
      rw [← hc]
      decide
    · intro c hc
      rw [getLast_append_ne_nil _ v hne] at hc
      exact trim_last_not_ws v hv c hc
  have hfind : findColonIdx (['t', 'e', 'x', 't', ':', ' '] ++ v) = some 4 := by
    simp [findColonIdx]
  have hkey : TrimAscii ((['t', 'e', 'x', 't', ':', ' '] ++ v).take 4) = kTextKey := by
    rw [show (['t', 'e', 'x', 't', ':', ' '] ++ v).take 4 = ['t', 'e', 'x', 't'] from rfl]
    decide
  have hval : TrimAscii ((['t', 'e', 'x', 't', ':', ' '] ++ v).drop 5) = v := by
    rw [show (['t', 'e', 'x', 't', ':', ' '] ++ v).drop 5 = ' ' :: v from rfl]
    rw [trim_cons_ws _ _ (by decide)]
    exact hv
  simp only [textValueOfLine, h1]
  rw [if_neg hblank, if_neg hid, if_pos hdat, hdrop, hpay, hfind]
  show (if TrimAscii ((['t', 'e', 'x', 't', ':', ' '] ++ v).take 4) = kTextKey
      then some (unescapeNl (TrimAscii ((['t', 'e', 'x', 't', ':', ' '] ++ v).drop 5)))
      else none) = some v
  rw [if_pos hkey, hval, hun]

/-- A wire line "id: tok" carries no text value. -/
theorem textValueOfLine_idLine (tok : List Char)
    (htok : TrimAscii tok = tok) (hne : tok ≠ []) :
    textValueOfLine (kIdLinePre ++ tok) = none := by
  have h1 : stripCR (kIdLinePre ++ tok) = kIdLinePre ++ tok := by
    apply stripCR_of_last_ne
    rw [getLast_append_ne_nil kIdLinePre tok hne]
    exact last_ne_cr tok htok
  have hblank : ¬ (kIdLinePre ++ tok = []) := by simp [kIdLinePre]
  have hid : startsWith kIdTag (kIdLinePre ++ tok) = true := by
    simp [kIdTag, kIdLinePre, startsWith]
  simp only [textValueOfLine, h1]
  rw [if_neg hblank, if_pos hid]

set_option maxHeartbeats 1000000 in
/-- The per-line text values of an id line followed by well-formed text
lines are exactly the text values, in order. -/
theorem filterMap_protocol (tok : List Char) (htok : TrimAscii tok = tok) (htokne : tok ≠ [])
    (ws : List (List Char)) (hws : ∀ v ∈ ws, TrimAscii v = v ∧ v ≠ [] ∧ unescapeNl v = v) :
    List.filterMap textValueOfLine
      ((kIdLinePre ++ tok) :: ws.map (fun v => kDataTextPre ++ v)) = ws := by
  rw [List.filterMap_cons, textValueOfLine_idLine tok htok htokne, List.filterMap_map]
  have h : List.filterMap (textValueOfLine ∘ fun v => kDataTextPre ++ v) ws
      = List.filterMap some ws := by
    apply List.filterMap_congr
    intro x hx
    obtain ⟨h1, h2, h3⟩ := hws x hx
    show textValueOfLine (kDataTextPre ++ x) = some x
    exact textValueOfLine_textLine x h1 h2 h3
  rw [h, List.filterMap_some]

set_option maxHeartbeats 1000000 in
/-- C2: one id line followed by any number of well-formed text lines,
with no blank terminator: after the id line and the first k text lines
exactly k events have been emitted (the flush is eager, per text line),
and once the whole sequence is consumed the shared latestText equals the
value of the last text line - last one wins. -/
theorem c2_eager_flush (stod : List Char → StodOut) (tz : Int → Int) (sst : SharedState)
    (tok : List Char) (htok : TrimAscii tok = tok) (htokne : tok ≠ [])
    (vs : List (List Char))
    (hv : ∀ v ∈ vs, TrimAscii v = v ∧ v ≠ [] ∧ unescapeNl v = v) :
    (∀ k, k ≤ vs.length →
      ((feedLines initParser
          ((kIdLinePre ++ tok) :: (vs.take k).map (fun v => kDataTextPre ++ v))).2).length = k)
    ∧ ∀ t, vs.getLast? = some t →
        (runSubscribe stod tz initParser sst
          ((kIdLinePre ++ tok) :: vs.map (fun v => kDataTextPre ++ v))).2.latestText = t := by
  constructor
  · intro k hk
    have hft := feedLines_texts
      ((kIdLinePre ++ tok) :: (vs.take k).map (fun v => kDataTextPre ++ v)) initParser rfl
    have hlen := congrArg List.length hft.1
    rw [List.length_map] at hlen
    rw [hlen]
    rw [filterMap_protocol tok htok htokne (vs.take k)
      (fun v hvk => hv v (List.mem_of_mem_take hvk))]
    rw [List.length_take]
    omega
  · intro t ht
    rw [runSubscribe_eq]
    have hft := feedLines_texts
      ((kIdLinePre ++ tok) :: vs.map (fun v => kDataTextPre ++ v)) initParser rfl
    have htexts : ((feedLines initParser
        ((kIdLinePre ++ tok) :: vs.map (fun v => kDataTextPre ++ v))).2).map Prod.snd = vs := by
      rw [hft.1, filterMap_protocol tok htok htokne vs hv]
    have hglast : ((feedLines initParser
        ((kIdLinePre ++ tok) :: vs.map (fun v => kDataTextPre ++ v))).2).getLast?.map Prod.snd
        = some t := by
      rw [← List.getLast?_map, htexts, ht]
    cases hgl : ((feedLines initParser
        ((kIdLinePre ++ tok) :: vs.map (fun v => kDataTextPre ++ v))).2).getLast? with
    | none => rw [hgl] at hglast; simp at hglast
    | some e =>
      rw [hgl] at hglast
      simp only [Option.map_some', Option.some.injEq] at hglast
      have hres := foldPubLatest stod tz _ sst e hgl
      rw [hres, hglast]
      have htmem : t ∈ vs := mem_of_getLast?_eq vs t ht
      obtain ⟨ht1, ht2, _⟩ := hv t htmem
      rw [ht1, if_neg ht2]

/-- Runs of the letter a are trim-stable. -/
theorem trim_replicate_a (n : Nat) :
    TrimAscii (List.replicate (n + 1) 'a') = List.replicate (n + 1) 'a' := by
  apply trim_eq_self_of_ends
  · intro c hc
    rw [List.head?_replicate] at hc
    simp only [Nat.succ_ne_zero, if_false, Option.some.injEq] at hc
    rw [← hc]
    decide
  · intro c hc
    rw [← List.head?_reverse, List.reverse_replicate, List.head?_replicate] at hc
    simp only [Nat.succ_ne_zero, if_false, Option.some.injEq] at hc
    rw [← hc]
    decide

/-- Distinct lengths give distinct runs of the letter a. -/
theorem replicate_succ_injective :
    Function.Injective (fun n : Nat => List.replicate (n + 1) 'a') := by
  intro a b hab
  have hL := congrArg List.length hab
  simp only [List.length_replicate] at hL
  omega

/-- C3: the scrollback log never exceeds 400 entries under any append
sequence; and after appending 401 distinct trim-stable nonempty strings
to the initial state, the log holds exactly the most recent 400 bodies in
original insertion order and the first-appended string is absent. -/
theorem c3_scrollback (ts : List (List Char)) (h1 : ts.length = 401)
    (h2 : ∀ t ∈ ts, TrimAscii t = t ∧ t ≠ []) (h3 : ts.Nodup) :
    (∀ (s : SharedState) (ps : List (List Char × List Char)), s.logLines.length ≤ 400 →
        (foldAppends s ps).logLines.length ≤ 400)
    ∧ (foldAppends initState (ts.map (fun t => ([], t)))).logLines.map LogLine.text
        = ts.drop 1
    ∧ (foldAppends initState (ts.map (fun t => ([], t)))).logLines.length = 400
    ∧ ∀ t0, ts.head? = some t0 →
        t0 ∉ (foldAppends initState (ts.map (fun t => ([], t)))).logLines.map LogLine.text := by
  have hinv : ∀ (s : SharedState) (ps : List (List Char × List Char)),
      s.logLines.length ≤ 400 → (foldAppends s ps).logLines.length ≤ 400 :=
    fun s ps h => (foldAppends_log ps s h).2
  have hlog := (foldAppends_log (ts.map (fun t => (([] : List Char), t))) initState
    (by simp [initState])).1
  have hmap : (ts.map (fun t => (([] : List Char), t))).map entryOf
      = ts.map (fun t => ({ hhmmss := kDashes, text := t } : LogLine)) := by
    rw [List.map_map]
    apply List.map_congr_left
    intro t htmem
    obtain ⟨ht1, ht2⟩ := h2 t htmem
    show entryOf ([], t) = _
    unfold entryOf
    simp [ht1, ht2]
  rw [hmap] at hlog
  simp only [show initState.logLines = [] from rfl, List.length_nil, List.length_map, h1,
    List.nil_append, Nat.zero_add] at hlog
  have harith : 401 - 400 = 1 := by omega
  rw [harith] at hlog
  have htext : (foldAppends initState (ts.map (fun t => ([], t)))).logLines.map LogLine.text
      = ts.drop 1 := by
    rw [hlog, ← List.map_drop, List.map_map]
    have : (LogLine.text ∘ fun t => ({ hhmmss := kDashes, text := t } : LogLine))
        = fun t => t := rfl
    rw [this, List.map_id']
  refine ⟨hinv, htext, ?_, ?_⟩
  · rw [hlog, List.length_drop, List.length_map, h1]
  · intro t0 hh0 hmem
    rw [htext] at hmem
    cases ts with
    | nil => simp at hh0
    | cons a rest =>
      simp only [List.head?_cons, Option.some.injEq] at hh0
      rw [List.drop_succ_cons, List.drop_zero] at hmem
      rw [List.nodup_cons] at h3
      rw [← hh0] at hmem
      exact h3.1 hmem

/-- C2 witness: id 7 followed by the texts a then b leaves b as the
latest text. -/
theorem c2_witness :
    (runSubscribe (fun _ => StodOut.throws) (fun _ => 0) initParser initState
      ((kIdLinePre ++ ['7']) :: ([['a'], ['b']].map (fun v => kDataTextPre ++ v)))).2.latestText
      = ['b'] :=
  (c2_eager_flush (fun _ => StodOut.throws) (fun _ => 0) initState ['7'] (by decide)
    (by decide) [['a'], ['b']] (by decide)).2 ['b'] (by decide)

/-- C3 witness: 401 distinct runs of the letter a leave a log of length
exactly 400. -/
theorem c3_witness :
    (foldAppends initState
      (((List.range 401).map (fun n => List.replicate (n + 1) 'a')).map
        (fun t => (([] : List Char), t)))).logLines.length = 400 :=
  (c3_scrollback ((List.range 401).map (fun n => List.replicate (n + 1) 'a'))
    (by simp)
    (by
      intro t ht
      obtain ⟨n, hn, rfl⟩ := List.mem_map.mp ht
      exact ⟨trim_replicate_a n, by simp⟩)
    (List.Nodup.map replicate_succ_injective (List.nodup_range 401))).2.2.1

/-- C10: a data line whose trimmed key is text emits exactly one event
whose text is the unescaped TrimAscii-trimmed wire value; that trimmed
value never carries surrounding whitespace (space, tab, CR, LF), and the
latestText any AppendLiveLogLine call stores never carries surrounding
whitespace either. -/
theorem c10_trimmed_emission (st : ParserState)
    (raw : List Char) (hcr : raw.getLast? ≠ some '\r')
    (i : Nat) (hfind : findColonIdx (TrimAscii raw) = some i)
    (hkey : TrimAscii ((TrimAscii raw).take i) = kTextKey) :
    (processLine st (kDataTag ++ raw)).2
        = [(st.eventId, unescapeNl (TrimAscii ((TrimAscii raw).drop (i + 1))))]
    ∧ noEdgeWs (TrimAscii ((TrimAscii raw).drop (i + 1))) = true
    ∧ ∀ (s : SharedState) (h t : List Char),
        noEdgeWs ((AppendLiveLogLine s h t).latestText) = true := by
  refine ⟨?_, trimAscii_noEdgeWs _, fun s h t => appendLive_noEdgeWs s h t⟩
  exact processLine_data_text st raw hcr i hfind hkey

/-- C10 witness: the wire value "hi" padded with spaces is emitted as
exactly "hi". -/
theorem c10_witness :
    (processLine initParser
      (kDataTag ++ ['t', 'e', 'x', 't', ':', ' ', 'h', 'i', ' '])).2 = [([], ['h', 'i'])] :=
  ((c10_trimmed_emission initParser ['t', 'e', 'x', 't', ':', ' ', 'h', 'i', ' ']
    (by decide) 4 (by decide) (by decide)).1).trans (by decide)
